import Mathlib

/-!
# Verification of the cbgb partition (vbucket) core

Shallow embedding of the vbucket command handlers (`checkRange`, `vbSet`,
`vbGet`, `vbDelete`, `vbChangesSince`, `vbRGet`), the split-range machinery
(`treeRangeCopy`, `rangeCopyTo`, `splitRangeActual`) and the view-refresh
error path (`viewsRefresh`, `periodicViewsRefresh`).

Modelling notes:
* Go byte slices become `List Nat`; `bytes.Compare` becomes the
  lexicographic `bytesCompare`.
* The immutable gtreap treaps (`items` keyed by `KeyLess`, `changes` keyed
  by `CASLess`) are modelled as lists; `Get`, `Upsert`, `Delete` and
  `VisitAscend` are modelled by the corresponding list operations.  An
  `Upsert`/`Delete` whose returned treap the Go source does not assign back
  is modelled by a discarded `let` binding, because gtreap treaps are
  persistent and such a call is a no-op.
* `uint64` arithmetic is `Nat` with an explicit `% 2 ^ 64` at the one place
  the source increments a counter (`v.cas++`).
* Per-op `Stats` counters, response `Extras`, and streaming-transport
  failures (`transmitPackets` errors) are not modelled; no claim below
  depends on them.
-/

set_option autoImplicit false

namespace Cbgb

/-- Go `[]byte` as a list of byte values. -/
abbrev Bytes := List Nat

/-- `bytes.Compare`: lexicographic comparison, a proper prefix is smaller. -/
def bytesCompare : Bytes → Bytes → Ordering
  | [], [] => .eq
  | [], _ :: _ => .lt
  | _ :: _, [] => .gt
  | a :: as, b :: bs =>
    if a < b then .lt
    else if b < a then .gt
    else bytesCompare as bs

/-- The `item` record (`key`, `exp`, `flag`, `cas`, `data`).  A `data` of
`none` models Go's nil slice, which marks a delete mutation in the change
log. -/
structure Item where
  key : Bytes
  cas : Nat
  data : Option Bytes
  exp : Nat := 0
  flag : Nat := 0
  deriving DecidableEq, Repr

/-- `VBState`: the partition lifecycle states. -/
inductive VBState where
  | active
  | replica
  | pending
  | dead
  deriving DecidableEq, Repr

/-- `VBConfig`: optional key-range restriction; an empty bound is open. -/
structure VBConfig where
  minKeyInclusive : Bytes
  maxKeyExclusive : Bytes
  deriving DecidableEq, Repr

/-- The serialized-per-partition state of a `vbucket` that the dispatch
handlers read and write: the two trees, the CAS counter, the lifecycle
state and the optional range config. -/
structure VBucket where
  vbid : Nat
  items : List Item
  changes : List Item
  cas : Nat
  state : VBState
  config : Option VBConfig
  deriving DecidableEq, Repr

/-- The `mutation` message published on the observer broadcaster. -/
structure Mutation where
  vb : Nat
  key : Bytes
  cas : Nat
  deleted : Bool
  deriving DecidableEq, Repr

/-- The opcodes the dispatch table maps to the handlers modelled here;
`OTHER` stands for every opcode whose table entry is nil. -/
inductive Opcode where
  | GET
  | GETK
  | GETQ
  | GETKQ
  | SET
  | SETQ
  | DELETE
  | DELETEQ
  | RGET
  | CHANGES_SINCE
  | OTHER
  deriving DecidableEq, Repr

/-- `gomemcached.CommandCode.IsQuiet` restricted to the opcodes above. -/
def isQuiet : Opcode → Bool
  | .GETQ | .GETKQ | .SETQ | .DELETEQ => true
  | _ => false

/-- Response status codes used by the handlers. -/
inductive Status where
  | success
  | keyEnoent
  | einval
  | notMyRange
  | unknownCommand
  | fatal
  deriving DecidableEq, Repr

/-- `gomemcached.MCRequest` restricted to the fields the handlers read. -/
structure MCRequest where
  opcode : Opcode
  key : Bytes := []
  cas : Nat := 0
  body : Option Bytes := none
  deriving DecidableEq, Repr

/-- `gomemcached.MCResponse` restricted to the fields the handlers write;
field defaults are the Go zero values. -/
structure MCResponse where
  status : Status := .success
  opcode : Opcode := .GET
  key : Bytes := []
  cas : Nat := 0
  body : Option Bytes := none
  deriving DecidableEq, Repr

/-- `2 ^ 64`: the modulus of Go's `uint64` counter arithmetic. -/
def UINT64_MOD : Nat := 2 ^ 64

/-! ## Treap operations

The `items` treap is keyed by `KeyLess` (byte comparison on `key`), the
`changes` treap by `CASLess` (numeric comparison on `cas`).  On the list
model, `Get` is a scan for the matching key, `Upsert` a sorted insert that
replaces an equal key, `Delete` removes the matching key, and
`VisitAscend p` visits the elements not below the pivot `p`. -/

/-- `items.Get(&item{key: k})` under the `KeyLess` comparator. -/
def keyGet (k : Bytes) : List Item → Option Item
  | [] => none
  | i :: is => if bytesCompare i.key k = .eq then some i else keyGet k is

/-- `Upsert` under the `KeyLess` comparator. -/
def keyUpsert (it : Item) : List Item → List Item
  | [] => [it]
  | i :: is =>
    match bytesCompare it.key i.key with
    | .lt => it :: i :: is
    | .eq => it :: is
    | .gt => i :: keyUpsert it is

/-- `Delete(&item{key: k})` under the `KeyLess` comparator. -/
def keyDelete (k : Bytes) : List Item → List Item
  | [] => []
  | i :: is => if bytesCompare i.key k = .eq then is else i :: keyDelete k is

/-- `Upsert` under the `CASLess` comparator. -/
def casUpsert (it : Item) : List Item → List Item
  | [] => [it]
  | i :: is =>
    if it.cas < i.cas then it :: i :: is
    else if it.cas = i.cas then it :: is
    else i :: casUpsert it is

/-- `Delete` under the `CASLess` comparator. -/
def casDelete (c : Nat) : List Item → List Item
  | [] => []
  | i :: is => if i.cas = c then is else i :: casDelete c is

/-- `changes.VisitAscend(&item{cas: pivot}, ...)`: the visited elements. -/
def visitAscendByCas (changes : List Item) (pivot : Nat) : List Item :=
  changes.filter (fun i => decide (pivot ≤ i.cas))

/-- `items.VisitAscend(&item{key: pivot}, ...)`: the visited elements. -/
def visitAscendByKey (items : List Item) (pivot : Bytes) : List Item :=
  items.filter (fun i => decide (bytesCompare i.key pivot ≠ .lt))

/-! ## Command handlers -/

/-- `(*vbucket).checkRange`: `NOT_MY_RANGE` when a non-empty `MinKeyInclusive`
is above the key or a non-empty `MaxKeyExclusive` is at or below it. -/
def checkRange (v : VBucket) (req : MCRequest) : Option MCResponse :=
  match v.config with
  | none => none
  | some c =>
    if c.minKeyInclusive ≠ [] ∧ bytesCompare req.key c.minKeyInclusive = .lt then
      some { status := .notMyRange }
    else if c.maxKeyExclusive ≠ [] ∧ bytesCompare req.key c.maxKeyExclusive ≠ .lt then
      some { status := .notMyRange }
    else
      none

/-- `vbSet`: range check, conditional-CAS check against the existing item
(`0` meaning absent), then upsert into both trees with the pre-increment
counter value; the `v.changes.Delete(old)` result is discarded in the
source, so it is a no-op on the persistent treap. -/
def vbSet (v : VBucket) (req : MCRequest) : VBucket × Option MCResponse × Option Mutation :=
  match checkRange v req with
  | some rangeErr => (v, some rangeErr, none)
  | none =>
    let old := keyGet req.key v.items
    let oldcas := match old with
      | some o => o.cas
      | none => 0
    if req.cas ≠ 0 ∧ oldcas ≠ req.cas then
      (v, some { status := .einval }, none)
    else
      let itemCas := v.cas
      let itemNew : Item := { key := req.key, cas := itemCas, data := req.body }
      let items1 := keyUpsert itemNew v.items
      let changes1 := casUpsert itemNew v.changes
      let changes2 := match old with
        | some o =>
          -- source: `v.changes.Delete(old)` without assigning the result back
          let _ := casDelete o.cas changes1
          changes1
        | none => changes1
      let v1 : VBucket := { v with
        cas := (v.cas + 1) % UINT64_MOD
        items := items1
        changes := changes2 }
      let toBroadcast : Mutation := { vb := v.vbid, key := req.key, cas := itemCas, deleted := false }
      if isQuiet req.opcode then (v1, none, some toBroadcast)
      else (v1, some { cas := itemCas }, some toBroadcast)

/-- `vbGet`: range check, then lookup; quiet misses are silent, misses
answer `KEY_ENOENT`, hits answer the item body with its CAS, and `GETK`
variants echo the key. -/
def vbGet (v : VBucket) (req : MCRequest) : Option MCResponse :=
  match checkRange v req with
  | some rangeErr => some rangeErr
  | none =>
    match keyGet req.key v.items with
    | none =>
      if isQuiet req.opcode then none
      else some { status := .keyEnoent }
    | some i =>
      let wantsKey := req.opcode = .GETK ∨ req.opcode = .GETKQ
      some { cas := i.cas, body := i.data, key := if wantsKey then req.key else [] }

/-- `vbDelete`: range check, conditional-CAS check on the existing item,
removal from `items` and a tombstone (nil `data`) appended to `changes`
under the pre-increment counter value. -/
def vbDelete (v : VBucket) (req : MCRequest) : VBucket × Option MCResponse × Option Mutation :=
  match checkRange v req with
  | some rangeErr => (v, some rangeErr, none)
  | none =>
    match keyGet req.key v.items with
    | some i =>
      if req.cas ≠ 0 ∧ req.cas ≠ i.cas then
        (v, some { status := .einval }, none)
      else
        let cas := v.cas
        let items1 := keyDelete req.key v.items
        let changes1 := casUpsert { key := req.key, cas := cas, data := none } v.changes
        let v1 : VBucket := { v with
          cas := (v.cas + 1) % UINT64_MOD
          items := items1
          changes := changes1 }
        (v1, some {}, some { vb := v.vbid, key := req.key, cas := cas, deleted := true })
    | none =>
      if isQuiet req.opcode then (v, none, none)
      else (v, some { status := .keyEnoent }, none)

/-- `vbChangesSince`: visit `changes` ascending from the request CAS, stream
one response per record with CAS strictly above it, and finish with the
initial response, whose key is empty.  Returns (streamed responses, final
response); transport errors are not modelled. -/
def vbChangesSince (v : VBucket) (req : MCRequest) : List MCResponse × MCResponse :=
  let streamed := (visitAscendByCas v.changes req.cas).filterMap fun i =>
    if req.cas < i.cas then
      some { opcode := req.opcode, key := i.key, cas := i.cas }
    else none
  (streamed, { opcode := req.opcode, cas := req.cas })

/-- `vbRGet`: visit `items` ascending from the request key with no range
check, stream every item whose key is at or above it, and respond with the
initial response.  Returns (streamed responses, final response). -/
def vbRGet (v : VBucket) (req : MCRequest) : List MCResponse × MCResponse :=
  let streamed := (visitAscendByKey v.items req.key).filterMap fun i =>
    if bytesCompare i.key req.key ≠ .lt then
      some { opcode := req.opcode, key := i.key, cas := i.cas, body := i.data }
    else none
  (streamed, { opcode := req.opcode, cas := req.cas })

/-- `newVBucket`: fresh partition with empty trees, zero CAS counter,
`dead` state and no range config. -/
def newVBucket (vbid : Nat) : VBucket :=
  { vbid := vbid, items := [], changes := [], cas := 0, state := .dead, config := none }

/-- The dispatch table: new state, response (none for suppressed quiet
responses) and broadcast mutation.  `RGET` and `CHANGES_SINCE` leave the
state unchanged; their streamed output is given by `vbRGet` and
`vbChangesSince`. -/
def dispatch (v : VBucket) (req : MCRequest) : VBucket × Option MCResponse × Option Mutation :=
  match req.opcode with
  | .GET | .GETK | .GETQ | .GETKQ => (v, vbGet v req, none)
  | .SET | .SETQ => vbSet v req
  | .DELETE | .DELETEQ => vbDelete v req
  | .RGET => (v, some (vbRGet v req).2, none)
  | .CHANGES_SINCE => (v, some (vbChangesSince v req).2, none)
  | .OTHER => (v, some { status := .unknownCommand }, none)

/-- State after serving a sequence of requests. -/
def runState (v : VBucket) : List MCRequest → VBucket
  | [] => v
  | r :: rs => runState (dispatch v r).1 rs

/-- The mutations broadcast while serving a sequence of requests, in order. -/
def runMutations (v : VBucket) : List MCRequest → List Mutation
  | [] => []
  | r :: rs =>
    (match (dispatch v r).2.2 with
     | some mu => [mu]
     | none => []) ++ runMutations (dispatch v r).1 rs

/-- The responses produced while serving a sequence of requests, in order. -/
def runResponses (v : VBucket) : List MCRequest → List (Option MCResponse)
  | [] => []
  | r :: rs => (dispatch v r).2.1 :: runResponses (dispatch v r).1 rs

/-! ## Split-range -/

/-- One entry of a `VBSplitRange` request body. -/
structure VBSplitRangePart where
  vbucketId : Nat
  minKeyInclusive : Bytes
  maxKeyExclusive : Bytes
  deriving DecidableEq, Repr

/-- `treeRangeCopy`: visit `src` ascending and call `dst.Upsert` on every
item inside `[minKeyInclusive, maxKeyExclusive)` (an empty bound is open).
The source never assigns the treap returned by `dst.Upsert(x, rand.Int())`
back to `dst`, so on the persistent treap each call is a no-op and the
function returns `dst` as it was passed in. -/
def treeRangeCopy (src dst : List Item) (minKeyInclusive maxKeyExclusive : Bytes)
    (upsert : Item → List Item → List Item) : List Item :=
  src.foldl
    (fun d i =>
      if minKeyInclusive ≠ [] ∧ bytesCompare i.key minKeyInclusive = .lt then d
      else if maxKeyExclusive ≠ [] ∧ bytesCompare i.key maxKeyExclusive ≠ .lt then d
      else
        -- source: `dst.Upsert(x, rand.Int())` without assigning the result back
        let _ := upsert i d
        d)
    dst

/-- `(*vbucket).rangeCopyTo`: rebuild the destination's trees from the
source through `treeRangeCopy` over fresh empty treaps, copy the CAS
counter and state, and install the assigned range as the destination's
config. -/
def rangeCopyTo (v dst : VBucket) (minKeyInclusive maxKeyExclusive : Bytes) : VBucket :=
  { dst with
    items := treeRangeCopy v.items [] minKeyInclusive maxKeyExclusive keyUpsert
    changes := treeRangeCopy v.changes [] minKeyInclusive maxKeyExclusive casUpsert
    cas := v.cas
    state := v.state
    config := some { minKeyInclusive := minKeyInclusive
                     maxKeyExclusive := maxKeyExclusive } }

/-- The `transferSplits` recursion of `splitRangeActual`, over the resolved
destination vbuckets (the source's `parent.CreateVBucket`/`getVBucket`
supplies a fresh dead vbucket for an absent id, or the existing one).  Each
destination must be `dead`, else the whole split fails with `EINVAL`
(`none`); copies happen while unwinding only after every deeper level
succeeded. -/
def transferSplits (v : VBucket) :
    List (VBSplitRangePart × VBucket) → Option (List (VBSplitRangePart × VBucket))
  | [] => some []
  | (p, vb) :: rest =>
    if vb.state = VBState.dead then
      match transferSplits v rest with
      | some rest1 => some ((p, rangeCopyTo v vb p.minKeyInclusive p.maxKeyExclusive) :: rest1)
      | none => none
    else
      none

/-- `(*vbucket).splitRangeActual`: run `transferSplits`; on success reset
the source to empty trees, `dead` state and an empty config.  Returns the
response status, the resulting source and the resulting destinations. -/
def splitRangeActual (v : VBucket) (splits : List (VBSplitRangePart × VBucket)) :
    Status × VBucket × List (VBSplitRangePart × VBucket) :=
  match transferSplits v splits with
  | some dests =>
    (.success,
     { v with
       items := []
       changes := []
       state := .dead
       config := some { minKeyInclusive := [], maxKeyExclusive := [] } },
     dests)
  | none => (.einval, v, splits)

/-! ## View refresh error path -/

/-- The view-refresh state of a `VBucket` that `viewsRefresh` touches: the
`staleness` counter. -/
structure ViewVB where
  staleness : Int
  deriving DecidableEq, Repr

/-- `(*VBucket).viewsRefresh`: snapshot the staleness `d`, run
`viewsRefresh_unlocked` (abstracted here by its outcome `refreshErr`,
since its body only reads the stores and indexes), and on success return
the staleness decremented by `d`; on error return `0` and the error with
the staleness untouched.  Result: (state, returned leftovers, returned
error). -/
def viewsRefresh (v : ViewVB) (refreshErr : Option Unit) : ViewVB × Int × Option Unit :=
  let d := v.staleness
  match refreshErr with
  | some e => (v, 0, some e)
  | none => ({ staleness := v.staleness - d }, v.staleness - d, none)

/-- `(*VBucket).periodicViewsRefresh`: run `viewsRefresh`, discard the
error, and ask the periodic driver to reschedule iff the returned
leftovers are positive. -/
def periodicViewsRefresh (v : ViewVB) (refreshErr : Option Unit) : ViewVB × Bool :=
  let r := viewsRefresh v refreshErr
  (r.1, r.2.1 > 0)

/-! ## Supporting lemmas -/

/-- `treeRangeCopy` returns the destination it was given: the source never
assigns the result of `dst.Upsert` back, and gtreap treaps are persistent. -/
theorem treeRangeCopy_eq_dst (src dst : List Item) (a b : Bytes)
    (upsert : Item → List Item → List Item) :
    treeRangeCopy src dst a b upsert = dst := by
  induction src generalizing dst with
  | nil => rfl
  | cons i is ih =>
    unfold treeRangeCopy
    simp only [List.foldl_cons]
    split
    · exact ih dst
    · split
      · exact ih dst
      · exact ih dst

/-- Inserting an item whose CAS is above every CAS in the list grows the
list by exactly one. -/
theorem casUpsert_length_of_fresh (it : Item) (l : List Item)
    (h : ∀ x ∈ l, x.cas < it.cas) :
    (casUpsert it l).length = l.length + 1 := by
  induction l with
  | nil => rfl
  | cons i is ih =>
    have hi : i.cas < it.cas := h i (by simp)
    have h1 : ¬ it.cas < i.cas := by omega
    have h2 : ¬ it.cas = i.cas := by omega
    simp only [casUpsert, if_neg h1, if_neg h2, List.length_cons]
    rw [ih (fun x hx => h x (by simp [hx]))]

/-- Members of `casUpsert it l` are `it` or members of `l`. -/
theorem mem_casUpsert {x it : Item} {l : List Item} (hx : x ∈ casUpsert it l) :
    x = it ∨ x ∈ l := by
  induction l with
  | nil => simp [casUpsert] at hx; exact Or.inl hx
  | cons i is ih =>
    unfold casUpsert at hx
    split at hx
    · simp only [List.mem_cons] at hx
      rcases hx with h | h | h
      · exact Or.inl h
      · exact Or.inr (by simp [h])
      · exact Or.inr (by simp [h])
    · split at hx
      · simp only [List.mem_cons] at hx
        rcases hx with h | h
        · exact Or.inl h
        · exact Or.inr (by simp [h])
      · simp only [List.mem_cons] at hx
        rcases hx with h | h
        · exact Or.inr (by simp [h])
        · rcases ih h with h1 | h1
          · exact Or.inl h1
          · exact Or.inr (by simp [h1])

/-- Shape of `vbSet`: either it leaves the state unchanged and broadcasts
nothing, or it succeeds, broadcasting the pre-increment CAS, bumping the
counter, and upserting the new record into both trees. -/
theorem vbSet_cases (v : VBucket) (req : MCRequest) :
    ((vbSet v req).1 = v ∧ (vbSet v req).2.2 = none) ∨
    ((vbSet v req).2.2 = some { vb := v.vbid, key := req.key, cas := v.cas, deleted := false } ∧
     (vbSet v req).1.cas = (v.cas + 1) % UINT64_MOD ∧
     (vbSet v req).1.changes = casUpsert { key := req.key, cas := v.cas, data := req.body } v.changes ∧
     (vbSet v req).1.items = keyUpsert { key := req.key, cas := v.cas, data := req.body } v.items) := by
  unfold vbSet
  cases checkRange v req with
  | some e => exact Or.inl ⟨rfl, rfl⟩
  | none =>
    by_cases hcond : req.cas ≠ 0 ∧
        (match keyGet req.key v.items with
         | some o => o.cas
         | none => 0) ≠ req.cas
    · rw [if_pos hcond]
      exact Or.inl ⟨rfl, rfl⟩
    · rw [if_neg hcond]
      refine Or.inr ?_
      cases hold : keyGet req.key v.items <;>
        by_cases hq : isQuiet req.opcode = true <;>
          simp [hold, hq]

/-- Shape of `vbDelete`: either it leaves the state unchanged and
broadcasts nothing, or it succeeds, broadcasting the pre-increment CAS,
bumping the counter, and appending the tombstone to `changes`. -/
theorem vbDelete_cases (v : VBucket) (req : MCRequest) :
    ((vbDelete v req).1 = v ∧ (vbDelete v req).2.2 = none) ∨
    ((vbDelete v req).2.2 = some { vb := v.vbid, key := req.key, cas := v.cas, deleted := true } ∧
     (vbDelete v req).1.cas = (v.cas + 1) % UINT64_MOD ∧
     (vbDelete v req).1.changes = casUpsert { key := req.key, cas := v.cas, data := none } v.changes ∧
     (vbDelete v req).1.items = keyDelete req.key v.items) := by
  unfold vbDelete
  split
  · exact Or.inl ⟨rfl, rfl⟩
  · split
    · split
      · exact Or.inl ⟨rfl, rfl⟩
      · exact Or.inr ⟨rfl, rfl, rfl, rfl⟩
    · split
      · exact Or.inl ⟨rfl, rfl⟩
      · exact Or.inl ⟨rfl, rfl⟩

/-- Shape of one dispatch step: either the state is unchanged with no
broadcast, or a mutation carrying the pre-increment CAS is broadcast, the
counter is bumped, and one record with that CAS is upserted into
`changes`. -/
theorem dispatch_cases (v : VBucket) (req : MCRequest) :
    ((dispatch v req).1 = v ∧ (dispatch v req).2.2 = none) ∨
    (∃ mu : Mutation, (dispatch v req).2.2 = some mu ∧ mu.cas = v.cas ∧
      (dispatch v req).1.cas = (v.cas + 1) % UINT64_MOD ∧
      ∃ it : Item, it.cas = v.cas ∧ (dispatch v req).1.changes = casUpsert it v.changes) := by
  unfold dispatch
  cases req.opcode with
  | SET | SETQ =>
    rcases vbSet_cases v req with ⟨h1, h2⟩ | ⟨h1, h2, h3, _⟩
    · exact Or.inl ⟨h1, h2⟩
    · exact Or.inr ⟨_, h1, rfl, h2, ⟨_, rfl, h3⟩⟩
  | DELETE | DELETEQ =>
    rcases vbDelete_cases v req with ⟨h1, h2⟩ | ⟨h1, h2, h3, _⟩
    · exact Or.inl ⟨h1, h2⟩
    · exact Or.inr ⟨_, h1, rfl, h2, ⟨_, rfl, h3⟩⟩
  | GET | GETK | GETQ | GETKQ | RGET | CHANGES_SINCE | OTHER =>
    exact Or.inl ⟨rfl, rfl⟩

/-- The `k`-th mutation broadcast along a trace carries CAS
`(v.cas + k) % 2 ^ 64`. -/
theorem runMutations_cas (rs : List MCRequest) :
    ∀ (v : VBucket) (k : Nat) (mu : Mutation), v.cas < UINT64_MOD →
      (runMutations v rs).get? k = some mu →
      mu.cas = (v.cas + k) % UINT64_MOD := by
  induction rs with
  | nil => intro v k mu _ h; simp [runMutations] at h
  | cons r rs ih =>
    intro v k mu hv h
    rcases dispatch_cases v r with ⟨hsame, hnone⟩ | ⟨mu1, hsome, hcas, hcas1, _⟩
    · rw [runMutations, hnone] at h
      simp only [List.nil_append] at h
      have := ih (dispatch v r).1 k mu (by rw [hsame]; exact hv) h
      rw [hsame] at this
      exact this
    · rw [runMutations, hsome] at h
      cases k with
      | zero =>
        simp only [List.singleton_append, List.get?] at h
        cases h
        rw [hcas, Nat.add_zero, Nat.mod_eq_of_lt hv]
      | succ k =>
        simp only [List.singleton_append, List.get?] at h
        have hv1 : (dispatch v r).1.cas < UINT64_MOD := by
          rw [hcas1]
          exact Nat.mod_lt _ (by unfold UINT64_MOD; positivity)
        have hmu := ih (dispatch v r).1 k mu hv1 h
        rw [hcas1, Nat.mod_add_mod] at hmu
        rw [hmu]
        congr 1
        omega

/-- A trace that broadcasts no mutation leaves the state unchanged. -/
theorem runState_of_no_mutations (rs : List MCRequest) :
    ∀ v : VBucket, runMutations v rs = [] → runState v rs = v := by
  induction rs with
  | nil => intro v _; rfl
  | cons r rs ih =>
    intro v h
    rw [runMutations] at h
    rcases dispatch_cases v r with ⟨hsame, hnone⟩ | ⟨mu1, hsome, _⟩
    · rw [hnone] at h
      have h2 : runMutations v rs = [] := by rw [← hsame]; exact h
      rw [runState, hsame]
      exact ih v h2
    · exfalso
      rw [hsome] at h
      exact List.cons_ne_nil _ _ h

/-- Along a wrap-free trace, every mutation upserts one fresh record into
`changes`, so `changes` grows by exactly the number of mutations. -/
theorem run_changes_length (rs : List MCRequest) :
    ∀ v : VBucket,
      v.cas + (runMutations v rs).length < UINT64_MOD →
      (∀ x ∈ v.changes, x.cas < v.cas) →
      (runState v rs).changes.length = v.changes.length + (runMutations v rs).length ∧
      (∀ x ∈ (runState v rs).changes, x.cas < (runState v rs).cas) ∧
      (runState v rs).cas = v.cas + (runMutations v rs).length := by
  induction rs with
  | nil => intro v _ hinv; exact ⟨rfl, hinv, rfl⟩
  | cons r rs ih =>
    intro v hb hinv
    rcases dispatch_cases v r with ⟨hsame, hnone⟩ | ⟨mu1, hsome, _, hcas1, it, hitcas, hchg⟩
    · have hmut : runMutations v (r :: rs) = runMutations v rs := by
        rw [runMutations, hnone, hsame]
        rfl
      rw [hmut] at hb
      rw [runState, hsame, hmut]
      exact ih v hb hinv
    · have hmut : runMutations v (r :: rs) = mu1 :: runMutations (dispatch v r).1 rs := by
        rw [runMutations, hsome]
        rfl
      rw [hmut] at hb
      rw [runState, hmut]
      simp only [List.length_cons] at hb ⊢
      have hfresh : ∀ x ∈ v.changes, x.cas < it.cas := by
        rw [hitcas]; exact hinv
      have hlen1 : (dispatch v r).1.changes.length = v.changes.length + 1 := by
        rw [hchg]; exact casUpsert_length_of_fresh it v.changes hfresh
      have hcaseq : (dispatch v r).1.cas = v.cas + 1 := by
        rw [hcas1]; exact Nat.mod_eq_of_lt (by omega)
      have hinv1 : ∀ x ∈ (dispatch v r).1.changes, x.cas < (dispatch v r).1.cas := by
        intro x hx
        rw [hchg] at hx
        rw [hcaseq]
        rcases mem_casUpsert hx with h | h
        · rw [h, hitcas]; omega
        · have := hinv x h; omega
      have hb1 : (dispatch v r).1.cas + (runMutations (dispatch v r).1 rs).length < UINT64_MOD := by
        rw [hcaseq]; omega
      obtain ⟨e1, e2, e3⟩ := ih (dispatch v r).1 hb1 hinv1
      refine ⟨?_, e2, ?_⟩
      · rw [e1, hlen1]; omega
      · rw [e3, hcaseq]; omega

/-- Emitting under the guard `c < cas` while visiting the records with
`c ≤ cas` streams exactly the records with `c < cas`, in place. -/
theorem changesSince_stream_eq (c : Nat) (op : Opcode) (l : List Item) :
    ((l.filter fun i => decide (c ≤ i.cas)).filterMap fun i =>
        if c < i.cas then some ({ opcode := op, key := i.key, cas := i.cas } : MCResponse)
        else none)
    = (l.filter fun i => decide (c < i.cas)).map fun i =>
        ({ opcode := op, key := i.key, cas := i.cas } : MCResponse) := by
  induction l with
  | nil => rfl
  | cons i is ih =>
    by_cases h1 : c < i.cas
    · have h2 : c ≤ i.cas := Nat.le_of_lt h1
      simp [List.filter_cons, h1, h2, ih]
    · by_cases h2 : c ≤ i.cas
      · simp [List.filter_cons, h1, h2, ih]
      · simp [List.filter_cons, h1, h2, ih]

/-- A `filterMap` whose guard repeats the filter's predicate is a `map`. -/
theorem filterMap_guard_of_filter (p : Item → Prop) [DecidablePred p]
    (f : Item → MCResponse) (l : List Item) :
    ((l.filter fun i => decide (p i)).filterMap fun i => if p i then some (f i) else none)
    = (l.filter fun i => decide (p i)).map f := by
  induction l with
  | nil => rfl
  | cons i is ih =>
    by_cases h : p i
    · simp [List.filter_cons, h, ih]
    · simp [List.filter_cons, h, ih]

/-- An out-of-range key makes `checkRange` answer `NOT_MY_RANGE`. -/
theorem checkRange_out (v : VBucket) (c : VBConfig) (req : MCRequest)
    (hc : v.config = some c)
    (hout : (c.minKeyInclusive ≠ [] ∧ bytesCompare req.key c.minKeyInclusive = .lt) ∨
            (c.maxKeyExclusive ≠ [] ∧ bytesCompare req.key c.maxKeyExclusive ≠ .lt)) :
    checkRange v req = some { status := .notMyRange } := by
  unfold checkRange
  rw [hc]
  dsimp only
  by_cases h1 : c.minKeyInclusive ≠ [] ∧ bytesCompare req.key c.minKeyInclusive = .lt
  · rw [if_pos h1]
  · rw [if_neg h1]
    rcases hout with h | h
    · exact absurd h h1
    · rw [if_pos h]

/-! ## Concrete scenario material -/

/-- A `SET` request (key, body, request CAS). -/
def mkSet (k b : Bytes) (c : Nat) : MCRequest :=
  { opcode := .SET, key := k, cas := c, body := some b }

/-- A `DELETE` request (key, request CAS). -/
def mkDel (k : Bytes) (c : Nat) : MCRequest :=
  { opcode := .DELETE, key := k, cas := c }

/-- The basic round-trip scenario: three sets of key `"a"` (byte 97) with
bodies `"1"`, `"2"`, `"9"` (bytes 49, 50, 57), all with request CAS 0. -/
def c2reqs : List MCRequest :=
  [mkSet [97] [49] 0, mkSet [97] [50] 0, mkSet [97] [57] 0]

/-- C2 counterexample: on a fresh partition, the third `set("a", "9", cas=0)`
does not fail with `EINVAL` as the claim states: a request CAS of 0 skips
the conditional check in `vbSet`, so the set succeeds with response CAS 2. -/
theorem c2_third_set_counterexample :
    (runResponses (newVBucket 0) c2reqs).get? 2 = some (some { cas := 2 }) ∧
    (runResponses (newVBucket 0) c2reqs).get? 2 ≠ some (some { status := Status.einval }) := by
  decide

/-- C2 amended: on a fresh partition, `set("a","1",cas=0)`,
`set("a","2",cas=0)`, `set("a","9",cas=0)` respond with CAS 0, 1 and 2
(the third set is unconditional and succeeds), leaving value `"9"` stored
at CAS 2. -/
theorem c2_basic_roundtrip_amended :
    runResponses (newVBucket 0) c2reqs =
      [some { cas := 0 }, some { cas := 1 }, some { cas := 2 }] ∧
    keyGet [97] (runState (newVBucket 0) c2reqs).items =
      some { key := [97], cas := 2, data := some [57] } := by
  decide

/-- A source partition holding key `"a"` (97) at CAS 0, counter 1. -/
def c6src : VBucket :=
  { vbid := 0,
    items := [{ key := [97], cas := 0, data := some [49] }],
    changes := [{ key := [97], cas := 0, data := some [49] }],
    cas := 1,
    state := .active,
    config := none }

/-- A single-destination split whose open range covers every key. -/
def c6splits : List (VBSplitRangePart × VBucket) :=
  [({ vbucketId := 1, minKeyInclusive := [], maxKeyExclusive := [] }, newVBucket 1)]

/-- C6: the split succeeds and the source is reset (empty trees, `dead`,
empty config) and the destination inherits the source's CAS counter, but
the destination's items and changes trees come out empty even though its
open range covers the source's key 97: `treeRangeCopy` discards the treap
returned by `dst.Upsert`, so nothing is ever copied, contradicting the
claim that destinations hold exactly the in-range source records. -/
theorem c6_split_destinations_empty :
    (splitRangeActual c6src c6splits).1 = Status.success ∧
    (splitRangeActual c6src c6splits).2.1.items = [] ∧
    (splitRangeActual c6src c6splits).2.1.changes = [] ∧
    (splitRangeActual c6src c6splits).2.1.state = VBState.dead ∧
    (splitRangeActual c6src c6splits).2.1.config =
      some { minKeyInclusive := [], maxKeyExclusive := [] } ∧
    (splitRangeActual c6src c6splits).2.2.map (fun pd => pd.2.cas) = [1] ∧
    (splitRangeActual c6src c6splits).2.2.map (fun pd => pd.2.items) = [[]] ∧
    (splitRangeActual c6src c6splits).2.2.map (fun pd => pd.2.changes) = [[]] ∧
    c6src.items = [{ key := [97], cas := 0, data := some [49] }] := by
  decide

/-- A source partition holding keys `"a"` (97), `"m"` (109), `"z"` (122). -/
def c7src : VBucket :=
  { vbid := 0,
    items := [{ key := [97], cas := 0, data := some [49] },
              { key := [109], cas := 1, data := some [50] },
              { key := [122], cas := 2, data := some [51] }],
    changes := [{ key := [97], cas := 0, data := some [49] },
                { key := [109], cas := 1, data := some [50] },
                { key := [122], cas := 2, data := some [51] }],
    cas := 3,
    state := .active,
    config := none }

/-- A two-destination split at `"n"` (110). -/
def c7splits : List (VBSplitRangePart × VBucket) :=
  [({ vbucketId := 1, minKeyInclusive := [], maxKeyExclusive := [110] }, newVBucket 1),
   ({ vbucketId := 2, minKeyInclusive := [110], maxKeyExclusive := [] }, newVBucket 2)]

/-- C7: the split succeeds, destination 1's range `[ , "n")` covers the
source key `"m"` (109), yet no destination receives any item - both item
lists come out empty because `treeRangeCopy` discards the treap returned by
`dst.Upsert`.  The claim that each covered item lands in exactly one
covering destination fails on every item. -/
theorem c7_covered_item_in_no_destination :
    (splitRangeActual c7src c7splits).1 = Status.success ∧
    bytesCompare [109] [110] = Ordering.lt ∧
    (keyGet [109] c7src.items).isSome = true ∧
    (splitRangeActual c7src c7splits).2.2.map (fun pd => pd.2.items) = [[], []] := by
  decide

/-- C8 counterexample: with staleness 3 and a failing refresh, the periodic
work function returns `false` (it does not request rescheduling), although
the staleness counter is indeed left at 3. -/
theorem c8_error_counterexample :
    (periodicViewsRefresh { staleness := 3 } (some ())).2 = false ∧
    (viewsRefresh { staleness := 3 } (some ())).1.staleness = 3 := by
  decide

/-- C8 amended: whenever `viewsRefresh` returns an error, the staleness
counter is not decremented, but `periodicViewsRefresh` returns `false`
(leftovers are reported as 0), so the periodic driver drops the
registration instead of retrying. -/
theorem c8_refresh_error_amended (v : ViewVB) (e : Unit) :
    viewsRefresh v (some e) = (v, 0, some e) ∧
    (periodicViewsRefresh v (some e)).1 = v ∧
    (periodicViewsRefresh v (some e)).2 = false := by
  exact ⟨rfl, rfl, rfl⟩

/-! ## Conditional CAS (claim C1) -/

/-- `vbSet` answers `EINVAL` and changes nothing when the conditional check
(request CAS nonzero and different from the current CAS, absent meaning 0)
fires. -/
theorem vbSet_einval_of (v : VBucket) (req : MCRequest)
    (hrange : checkRange v req = none)
    (hcond : req.cas ≠ 0 ∧
      (match keyGet req.key v.items with
       | some o => o.cas
       | none => 0) ≠ req.cas) :
    vbSet v req = (v, some { status := .einval }, none) := by
  unfold vbSet
  rw [hrange]
  rw [if_pos hcond]

/-- When the conditional check does not fire, `vbSet` broadcasts a mutation
carrying the pre-increment CAS. -/
theorem vbSet_mutates_of (v : VBucket) (req : MCRequest)
    (hrange : checkRange v req = none)
    (hcond : ¬(req.cas ≠ 0 ∧
      (match keyGet req.key v.items with
       | some o => o.cas
       | none => 0) ≠ req.cas)) :
    (vbSet v req).2.2 = some { vb := v.vbid, key := req.key, cas := v.cas, deleted := false } := by
  unfold vbSet
  rw [hrange]
  rw [if_neg hcond]
  cases hk : keyGet req.key v.items <;>
    by_cases hq : isQuiet req.opcode = true <;>
      simp [hk, hq]

/-- `vbDelete` answers `EINVAL` and changes nothing on a CAS mismatch with
an existing item. -/
theorem vbDelete_einval_of (v : VBucket) (req : MCRequest) (i : Item)
    (hrange : checkRange v req = none)
    (hk : keyGet req.key v.items = some i)
    (hcond : req.cas ≠ 0 ∧ req.cas ≠ i.cas) :
    vbDelete v req = (v, some { status := .einval }, none) := by
  unfold vbDelete
  rw [hrange, hk]
  dsimp only
  rw [if_pos hcond]

/-- When the item exists and the conditional check does not fire,
`vbDelete` broadcasts a deletion mutation carrying the pre-increment CAS. -/
theorem vbDelete_mutates_of (v : VBucket) (req : MCRequest) (i : Item)
    (hrange : checkRange v req = none)
    (hk : keyGet req.key v.items = some i)
    (hcond : ¬(req.cas ≠ 0 ∧ req.cas ≠ i.cas)) :
    (vbDelete v req).2.2 = some { vb := v.vbid, key := req.key, cas := v.cas, deleted := true } := by
  unfold vbDelete
  rw [hrange, hk]
  dsimp only
  rw [if_neg hcond]

/-- `vbDelete` broadcasts nothing when the item is absent. -/
theorem vbDelete_absent_of (v : VBucket) (req : MCRequest)
    (hrange : checkRange v req = none)
    (hk : keyGet req.key v.items = none) :
    (vbDelete v req).2.2 = none := by
  unfold vbDelete
  rw [hrange, hk]
  dsimp only
  split <;> rfl

/-- The partition used by the C1 counterexample: one item at key 97 with
CAS 5 while the range config starts at key 98, so key 97 is out of range. -/
def c1cexV : VBucket :=
  { vbid := 0,
    items := [{ key := [97], cas := 5, data := some [49] }],
    changes := [],
    cas := 6,
    state := .active,
    config := some { minKeyInclusive := [98], maxKeyExclusive := [] } }

/-- The C1 counterexample request: a `SET` of key 97 with request CAS 5. -/
def c1cexReq : MCRequest := mkSet [97] [50] 5

/-- C1 counterexample: the claim quantifies over every partition state, but
an item can sit outside the configured range (the config can change after
the insert).  Here the item exists and its CAS equals the nonzero request
CAS, yet the set does not succeed: the range check fires first, answering
`NOT_MY_RANGE` (not `EINVAL`) and mutating nothing. -/
theorem c1_counterexample :
    c1cexReq.cas = 5 ∧ c1cexReq.cas ≠ 0 ∧
    keyGet c1cexReq.key c1cexV.items = some { key := [97], cas := 5, data := some [49] } ∧
    (vbSet c1cexV c1cexReq).2.2 = none ∧
    (vbSet c1cexV c1cexReq).2.1 = some { status := Status.notMyRange } ∧
    (vbSet c1cexV c1cexReq).1 = c1cexV := by
  decide

/-- C1 amended: for every set or delete request with nonzero request CAS
whose key passes the range check, the operation succeeds (broadcasts a
mutation) iff an item with the request key exists and its CAS equals the
request CAS; on a CAS mismatch with an existing item both handlers answer
`EINVAL` and leave the whole state, in particular the items tree, the
changes tree and the cas counter, unchanged. -/
theorem c1_conditional_cas_amended (v : VBucket) (req : MCRequest)
    (hrange : checkRange v req = none) (hcas : req.cas ≠ 0) :
    ((vbSet v req).2.2.isSome = true ↔
      ∃ i, keyGet req.key v.items = some i ∧ i.cas = req.cas) ∧
    ((vbDelete v req).2.2.isSome = true ↔
      ∃ i, keyGet req.key v.items = some i ∧ i.cas = req.cas) ∧
    (∀ i, keyGet req.key v.items = some i → i.cas ≠ req.cas →
      vbSet v req = (v, some { status := .einval }, none) ∧
      vbDelete v req = (v, some { status := .einval }, none)) := by
  refine ⟨?_, ?_, ?_⟩
  · by_cases hcond : req.cas ≠ 0 ∧
        (match keyGet req.key v.items with
         | some o => o.cas
         | none => 0) ≠ req.cas
    · rw [vbSet_einval_of v req hrange hcond]
      constructor
      · intro h; simp at h
      · rintro ⟨i, hi, hic⟩
        exfalso
        have h2 := hcond.2
        rw [hi] at h2
        exact h2 hic
    · rw [vbSet_mutates_of v req hrange hcond]
      simp only [Option.isSome_some, true_iff]
      push_neg at hcond
      have hm := hcond hcas
      cases hk : keyGet req.key v.items with
      | none =>
        rw [hk] at hm
        exact absurd hm.symm hcas
      | some o =>
        rw [hk] at hm
        exact ⟨o, rfl, hm⟩
  · cases hk : keyGet req.key v.items with
    | none =>
      rw [vbDelete_absent_of v req hrange hk]
      simp
    | some i =>
      by_cases heq : i.cas = req.cas
      · have hcond : ¬(req.cas ≠ 0 ∧ req.cas ≠ i.cas) := by
          push_neg
          intro _
          exact heq.symm
        rw [vbDelete_mutates_of v req i hrange hk hcond]
        simp [heq]
      · have hcond : req.cas ≠ 0 ∧ req.cas ≠ i.cas := ⟨hcas, fun h => heq h.symm⟩
        rw [vbDelete_einval_of v req i hrange hk hcond]
        simp [heq]
  · intro i hk hic
    constructor
    · refine vbSet_einval_of v req hrange ⟨hcas, ?_⟩
      rw [hk]
      exact hic
    · exact vbDelete_einval_of v req i hrange hk ⟨hcas, fun h => hic h.symm⟩

/-- The in-range partition used by the C1 witness. -/
def c1wV : VBucket :=
  { vbid := 0,
    items := [{ key := [97], cas := 5, data := some [49] }],
    changes := [],
    cas := 6,
    state := .active,
    config := none }

/-- C1 witness: the amended theorem applied to a concrete in-range state
with a matching conditional set. -/
theorem c1_conditional_cas_witness :
    ((vbSet c1wV (mkSet [97] [50] 5)).2.2.isSome = true ↔
      ∃ i, keyGet (mkSet [97] [50] 5).key c1wV.items = some i ∧ i.cas = (mkSet [97] [50] 5).cas) ∧
    ((vbDelete c1wV (mkSet [97] [50] 5)).2.2.isSome = true ↔
      ∃ i, keyGet (mkSet [97] [50] 5).key c1wV.items = some i ∧ i.cas = (mkSet [97] [50] 5).cas) ∧
    (∀ i, keyGet (mkSet [97] [50] 5).key c1wV.items = some i → i.cas ≠ (mkSet [97] [50] 5).cas →
      vbSet c1wV (mkSet [97] [50] 5) = (c1wV, some { status := .einval }, none) ∧
      vbDelete c1wV (mkSet [97] [50] 5) = (c1wV, some { status := .einval }, none)) :=
  c1_conditional_cas_amended c1wV (mkSet [97] [50] 5) (by decide) (by decide)

/-! ## Not-my-range (claim C4) -/

/-- The opcodes of the get, set and delete families. -/
def isGetSetDelete : Opcode → Bool
  | .GET | .GETK | .GETQ | .GETKQ | .SET | .SETQ | .DELETE | .DELETEQ => true
  | _ => false

/-- C4: every get, set or delete on a key outside the configured range
(below a non-empty `minKeyInclusive` or at/above a non-empty
`maxKeyExclusive`) answers `NOT_MY_RANGE` and leaves the entire partition
state, in particular the items tree, changes tree and cas counter,
unchanged, broadcasting nothing. -/
theorem c4_not_my_range (v : VBucket) (c : VBConfig) (req : MCRequest)
    (hc : v.config = some c)
    (hop : isGetSetDelete req.opcode = true)
    (hout : (c.minKeyInclusive ≠ [] ∧ bytesCompare req.key c.minKeyInclusive = .lt) ∨
            (c.maxKeyExclusive ≠ [] ∧ bytesCompare req.key c.maxKeyExclusive ≠ .lt)) :
    dispatch v req = (v, some { status := .notMyRange }, none) := by
  have hcr := checkRange_out v c req hc hout
  obtain ⟨op, key, rcas, body⟩ := req
  unfold dispatch
  cases op with
  | GET | GETK | GETQ | GETKQ =>
    dsimp only
    unfold vbGet
    rw [hcr]
  | SET | SETQ =>
    dsimp only
    unfold vbSet
    rw [hcr]
  | DELETE | DELETEQ =>
    dsimp only
    unfold vbDelete
    rw [hcr]
  | RGET => simp [isGetSetDelete] at hop
  | CHANGES_SINCE => simp [isGetSetDelete] at hop
  | OTHER => simp [isGetSetDelete] at hop

/-- The out-of-range partition used by the C4 witness. -/
def c4wV : VBucket :=
  { vbid := 0,
    items := [],
    changes := [],
    cas := 0,
    state := .active,
    config := some { minKeyInclusive := [98], maxKeyExclusive := [] } }

/-- C4 witness: a `GET` of key 97 against a partition whose range starts at
key 98. -/
theorem c4_not_my_range_witness :
    dispatch c4wV { opcode := .GET, key := [97] } =
      (c4wV, some { status := .notMyRange }, none) :=
  c4_not_my_range c4wV { minKeyInclusive := [98], maxKeyExclusive := [] }
    { opcode := .GET, key := [97] } rfl (by decide) (by decide)

/-! ## Changes-since stream (claim C5) -/

/-- C5: on a change log sorted strictly by CAS, `vbChangesSince` streams
exactly the records with CAS strictly above the request CAS, each response
carrying that record's key and CAS, in ascending CAS order, and the final
(terminator) response carries an empty key. -/
theorem c5_changes_since (v : VBucket) (req : MCRequest)
    (hsorted : v.changes.Pairwise fun a b => a.cas < b.cas) :
    (vbChangesSince v req).1 =
      (v.changes.filter fun i => decide (req.cas < i.cas)).map
        (fun i => { opcode := req.opcode, key := i.key, cas := i.cas }) ∧
    (vbChangesSince v req).1.Pairwise (fun a b => a.cas < b.cas) ∧
    (vbChangesSince v req).2.key = [] := by
  have h1 : (vbChangesSince v req).1 =
      (v.changes.filter fun i => decide (req.cas < i.cas)).map
        (fun i => { opcode := req.opcode, key := i.key, cas := i.cas }) := by
    unfold vbChangesSince visitAscendByCas
    exact changesSince_stream_eq req.cas req.opcode v.changes
  refine ⟨h1, ?_, rfl⟩
  rw [h1, List.pairwise_map]
  exact List.Pairwise.sublist (List.filter_sublist v.changes) hsorted

/-- The partition used by the C5 witness: three change records at CAS 0, 1
and 2 (the last a tombstone). -/
def c5wV : VBucket :=
  { vbid := 0,
    items := [],
    changes := [{ key := [97], cas := 0, data := some [49] },
                { key := [98], cas := 1, data := some [50] },
                { key := [97], cas := 2, data := none }],
    cas := 3,
    state := .active,
    config := none }

/-- The C5 witness request: changes since CAS 0. -/
def c5wReq : MCRequest := { opcode := .CHANGES_SINCE, cas := 0 }

/-- C5 witness: the theorem applied to a concrete sorted change log. -/
theorem c5_changes_since_witness :
    (vbChangesSince c5wV c5wReq).1 =
      (c5wV.changes.filter fun i => decide (c5wReq.cas < i.cas)).map
        (fun i => { opcode := c5wReq.opcode, key := i.key, cas := i.cas }) ∧
    (vbChangesSince c5wV c5wReq).1.Pairwise (fun a b => a.cas < b.cas) ∧
    (vbChangesSince c5wV c5wReq).2.key = [] :=
  c5_changes_since c5wV c5wReq (by decide)

/-! ## Range-get ignores the range config (claim C9) -/

/-- C9: `vbRGet` performs no range check: whatever the range config is, it
streams exactly the stored items whose key is at or above the request key
(keys outside the configured range included), the final response has
status `SUCCESS` (never `NOT_MY_RANGE`), and the result does not depend on
the config at all. -/
theorem c9_rget_no_range_check (v : VBucket) (req : MCRequest) :
    (vbRGet v req).1 =
      (v.items.filter fun i => decide (bytesCompare i.key req.key ≠ .lt)).map
        (fun i => { opcode := req.opcode, key := i.key, cas := i.cas, body := i.data }) ∧
    (vbRGet v req).2.status = Status.success ∧
    (∀ cfg, vbRGet { v with config := cfg } req = vbRGet v req) := by
  refine ⟨?_, rfl, fun cfg => rfl⟩
  unfold vbRGet visitAscendByKey
  exact filterMap_guard_of_filter (fun i => bytesCompare i.key req.key ≠ .lt) _ v.items

/-! ## CAS assignment and monotonicity (claim C3) -/

/-- C3: every successful mutating operation broadcasts and records the
pre-increment value of the cas counter and then increments the counter,
and consequently, along any trace whose mutation count keeps the `uint64`
counter from wrapping, any mutation performed earlier carries a strictly
smaller CAS than any mutation performed later. -/
theorem c3_cas_monotonicity (v : VBucket) (rs : List MCRequest)
    (hb : v.cas + (runMutations v rs).length ≤ UINT64_MOD)
    (i j : Nat) (hij : i < j) (mi mj : Mutation)
    (hmi : (runMutations v rs).get? i = some mi)
    (hmj : (runMutations v rs).get? j = some mj) :
    mi.cas < mj.cas ∧
    (∀ (w : VBucket) (req : MCRequest) (mu : Mutation),
      (dispatch w req).2.2 = some mu →
      mu.cas = w.cas ∧ (dispatch w req).1.cas = (w.cas + 1) % UINT64_MOD ∧
      ∃ it, it.cas = w.cas ∧ (dispatch w req).1.changes = casUpsert it w.changes) := by
  constructor
  · have hj : j < (runMutations v rs).length := by
      rcases List.get?_eq_some.mp hmj with ⟨h, _⟩
      exact h
    have hvlt : v.cas < UINT64_MOD := by omega
    have hic := runMutations_cas rs v i mi hvlt hmi
    have hjc := runMutations_cas rs v j mj hvlt hmj
    have hiv : v.cas + i < UINT64_MOD := by omega
    have hjv : v.cas + j < UINT64_MOD := by omega
    rw [Nat.mod_eq_of_lt hiv] at hic
    rw [Nat.mod_eq_of_lt hjv] at hjc
    omega
  · intro w req mu hmu
    rcases dispatch_cases w req with ⟨_, hnone⟩ | ⟨mu1, hsome, hcasmu, hc1, it, hit, hch⟩
    · rw [hnone] at hmu; cases hmu
    · rw [hsome] at hmu
      cases hmu
      exact ⟨hcasmu, hc1, it, hit, hch⟩

/-- The two-set trace used by the C3 witness. -/
def c3wReqs : List MCRequest := [mkSet [97] [49] 0, mkSet [98] [50] 0]

/-- C3 witness: the theorem applied to a fresh partition and two sets,
whose broadcast mutations carry CAS 0 and CAS 1. -/
theorem c3_cas_monotonicity_witness :
    ({ vb := 0, key := [97], cas := 0, deleted := false } : Mutation).cas <
      ({ vb := 0, key := [98], cas := 1, deleted := false } : Mutation).cas ∧
    (∀ (w : VBucket) (req : MCRequest) (mu : Mutation),
      (dispatch w req).2.2 = some mu →
      mu.cas = w.cas ∧ (dispatch w req).1.cas = (w.cas + 1) % UINT64_MOD ∧
      ∃ it, it.cas = w.cas ∧ (dispatch w req).1.changes = casUpsert it w.changes) :=
  c3_cas_monotonicity (newVBucket 0) c3wReqs (by decide) 0 1 (by decide)
    { vb := 0, key := [97], cas := 0, deleted := false }
    { vb := 0, key := [98], cas := 1, deleted := false }
    (by decide) (by decide)

/-! ## Change log accumulates one record per mutation (claim C10) -/

/-- C10: a successful set never removes the superseded record from the
changes tree (the treap returned by `changes.Delete(old)` is discarded, so
the new record is simply upserted), and consequently, starting from a
fresh partition, after any wrap-free trace of operations the changes tree
holds exactly one record per broadcast mutation. -/
theorem c10_changes_one_record_per_mutation (v : VBucket) (rs : List MCRequest)
    (hcas : v.cas = 0) (hch : v.changes = [])
    (hb : (runMutations v rs).length < UINT64_MOD) :
    (runState v rs).changes.length = (runMutations v rs).length ∧
    (∀ (w : VBucket) (req : MCRequest) (mu : Mutation),
      (vbSet w req).2.2 = some mu →
      (vbSet w req).1.changes =
        casUpsert { key := req.key, cas := w.cas, data := req.body } w.changes) := by
  constructor
  · have hrun := run_changes_length rs v (by omega)
      (by intro x hx; rw [hch] at hx; simp at hx)
    rw [hch] at hrun
    simpa using hrun.1
  · intro w req mu hmu
    rcases vbSet_cases w req with ⟨_, hnone⟩ | ⟨_, _, hch1, _⟩
    · rw [hnone] at hmu; cases hmu
    · exact hch1

/-- The trace used by the C10 witness: two sets of the same key (the
second supersedes the first) and a conditional delete. -/
def c10wReqs : List MCRequest := [mkSet [97] [49] 0, mkSet [97] [50] 0, mkDel [97] 1]

/-- C10 witness: the theorem applied to a fresh partition and a trace of
three mutations; the changes tree ends with three records although the
first was superseded and then deleted. -/
theorem c10_changes_one_record_per_mutation_witness :
    (runState (newVBucket 0) c10wReqs).changes.length =
      (runMutations (newVBucket 0) c10wReqs).length ∧
    (∀ (w : VBucket) (req : MCRequest) (mu : Mutation),
      (vbSet w req).2.2 = some mu →
      (vbSet w req).1.changes =
        casUpsert { key := req.key, cas := w.cas, data := req.body } w.changes) :=
  c10_changes_one_record_per_mutation (newVBucket 0) c10wReqs rfl rfl (by decide)

end Cbgb
